import Mathlib

/-!
Verification of the adaptive assessment engine of `ascendquiz_db.py`.

The engine's functions (`assign_difficulty_label`, `group_by_difficulty`,
`pick_question`, `find_next_difficulty`, `get_next_question`,
`compute_mastery_score`) and the session state machine embedded in
`render_quiz` are translated here as a shallow embedding:

* Python ints are `Int`, Python floats are modelled exactly over `ℚ`
  (every arithmetic operation the scorer performs is exact on the
  rationals; `round` is Python's round-half-to-even);
* the `asked` set of `(difficulty, index)` pairs is a `Finset (Int × ℕ)`;
* the dictionary returned by `group_by_difficulty` is a total function
  `Int → List Question` (absent keys read as `[]`, mirroring
  `all_qs.get(diff, [])`);
* the process-global `random` generator consumed by `random.choice` is
  modelled as an explicit ambient state (`RngState`, a stream of
  pre-drawn naturals) threaded through the selector, the standard
  shallow embedding of global mutable state;
* the mutable `st.session_state.quiz_state` dictionary is the structure
  `QuizState`, and each branch of `render_quiz` that mutates it becomes
  a step function.
-/

/-- Result of Python's `int(...)` conversion applied to the raw
`estimated_correct_pct` field: either the conversion succeeds and yields an
integer, or it raises (non-numeric data), which `assign_difficulty_label`
catches with its bare `except`. -/
inductive PctVal where
  | num (n : Int) : PctVal
  | nonNumeric : PctVal
deriving DecidableEq

/-- Python `int(estimated_pct)` under the `try/except` of
`assign_difficulty_label`: `some n` on success, `none` when it raises. -/
def pyInt : PctVal → Option Int
  | PctVal.num n => some n
  | PctVal.nonNumeric => none

/-- A question record as consumed by the engine.  The source also carries a
`topic`/`cognitive_level` tag used only by the UI, and
`group_by_difficulty` writes a derived `difficulty_label` field back into
the record; no claim depends on either, so they are omitted here.
`estimated_correct_pct = none` models a record lacking the field entirely,
in which case `q.get("estimated_correct_pct", 0)` substitutes `0`. -/
structure Question where
  question : String
  options : List String
  correct_answer : String
  explanation : String
  estimated_correct_pct : Option PctVal
deriving DecidableEq

/-- Value of `q.get("estimated_correct_pct", 0)`: the stored field, or the
integer `0` when the field is absent. -/
def pctField (q : Question) : PctVal :=
  q.estimated_correct_pct.getD (PctVal.num 0)

/-- Translation of `assign_difficulty_label` (ascendquiz_db.py lines
769-782): map an estimated correctness percentage to a difficulty tier
1-8, or `none` when `int()` raises. -/
def assign_difficulty_label (estimated_pct : PctVal) : Option Int :=
  match pyInt estimated_pct with
  | none => none
  | some pct =>
    if pct < 30 then some 8
    else if pct < 40 then some 7
    else if pct < 50 then some 6
    else if pct < 65 then some 5
    else if pct < 75 then some 4
    else if pct < 85 then some 3
    else if pct < 90 then some 2
    else some 1

/-- Loop body of `group_by_difficulty`: fold over the question list,
appending each labelled question to its tier's sequence.  `groups` is the
dictionary `{1: [...], ..., 8: [...]}` read through `.get(d, [])`, hence a
total function defaulting to `[]`. -/
def group_go : List Question → (Int → List Question) → (Int → List Question)
  | [], groups => groups
  | q :: rest, groups =>
    match assign_difficulty_label (pctField q) with
    | some label =>
        group_go rest (fun d => if d = label then groups d ++ [q] else groups d)
    | none => group_go rest groups

/-- Translation of `group_by_difficulty` (lines 784-793): organise the
questions into 8 difficulty tiers, silently skipping questions whose
percentage fails integer conversion (`if label:` — labels 1..8 are truthy,
`None` is falsy). -/
def group_by_difficulty (questions : List Question) : Int → List Question :=
  group_go questions (fun _ => [])

/-- Translation of `pick_question` (lines 795-798): the `(index, question)`
pairs at difficulty `diff` whose `(diff, i)` key is not in `asked`, in
enumeration order. -/
def pick_question (diff : Int) (asked : Finset (Int × Nat))
    (all_qs : Int → List Question) : List (Nat × Question) :=
  ((all_qs diff).enum).filter (fun p => (diff, p.1) ∉ asked)

/-- Python `range(a, a + n)` as a list of integers. -/
def intRange : Int → Nat → List Int
  | _, 0 => []
  | a, n + 1 => a :: intRange (a + 1) n

/-- Python `range(a, a - n, -1)` as a list of integers. -/
def intRangeDown : Int → Nat → List Int
  | _, 0 => []
  | a, n + 1 => a :: intRangeDown (a - 1) n

/-- Translation of `find_next_difficulty` (lines 800-811).  `range(next_diff
+ 1, 9)` is `intRange (next_diff + 1) (8 - next_diff).toNat` and
`range(next_diff - 1, 0, -1)` is `intRangeDown (next_diff - 1)
(next_diff - 1).toNat`; list truthiness is `!·.isEmpty`. -/
def find_next_difficulty (current_diff : Int) (going_up : Bool)
    (asked : Finset (Int × Nat)) (all_qs : Int → List Question) : Int :=
  let next_diff := if going_up then current_diff + 1 else current_diff - 1
  if 1 ≤ next_diff ∧ next_diff ≤ 8 ∧
      !(pick_question next_diff asked all_qs).isEmpty then
    next_diff
  else
    let search_range : List Int :=
      if going_up then intRange (next_diff + 1) (8 - next_diff).toNat
      else intRangeDown (next_diff - 1) (next_diff - 1).toNat
    match search_range.find? (fun d => !(pick_question d asked all_qs).isEmpty) with
    | some d => d
    | none => current_diff

/-- Ambient state of the process-global `random` generator, modelled as the
stream of naturals it will produce.  `get_next_question` calls
`random.choice` on this global generator — it has no rng or seed
parameter of its own — so the generator state is threaded through
explicitly, the shallow embedding of global mutable state. -/
structure RngState where
  draws : List Nat
deriving DecidableEq

/-- One draw from the global generator (an exhausted model stream keeps
yielding 0; the distribution is irrelevant to every claim). -/
def rand_draw (r : RngState) : Nat × RngState :=
  match r.draws with
  | [] => (0, ⟨[]⟩)
  | k :: rest => (k, ⟨rest⟩)

/-- Model of `random.choice(l)` on the global generator: consume one draw
and select the element at index `draw % len(l)`; `none` models the
`IndexError` on an empty sequence (never reached by the engine, which
guards with `if not available`). -/
def random_choice {α : Type} (r : RngState) (l : List α) : Option (α × RngState) :=
  match l with
  | [] => none
  | x :: xs =>
    let d := rand_draw r
    some ((x :: xs).get ⟨d.1 % (xs.length + 1), Nat.mod_lt _ (Nat.succ_pos _)⟩, d.2)

/-- Translation of `get_next_question` (lines 813-819): compute the
available list at the current difficulty; if empty return
`(current_diff, None, None)`, otherwise return the uniformly chosen
`(idx, q)` pair, consuming the global generator. -/
def get_next_question (rng : RngState) (current_diff : Int)
    (asked : Finset (Int × Nat)) (all_qs : Int → List Question) :
    (Int × Option Nat × Option Question) × RngState :=
  let available := pick_question current_diff asked all_qs
  match random_choice rng available with
  | none => ((current_diff, none, none), rng)
  | some (iq, rng2) => ((current_diff, some iq.1, some iq.2), rng2)

/-- An answer record as appended by the state machine:
`(difficulty, correct, question)`. -/
abbrev AnswerRecord := Int × Bool × Question

/-- Python's `round` on an exact rational: round half to even (banker's
rounding), which is what `round` does and what `int(round(x))` returns. -/
def pyRound (x : ℚ) : Int :=
  let fl := ⌊x⌋
  let frac := x - fl
  if frac < 1 / 2 then fl
  else if 1 / 2 < frac then fl + 1
  else if fl % 2 = 0 then fl else fl + 1

/-- The `mastery_bands` dictionary of `compute_mastery_score` in insertion
order: band (pair of tiers) with its maximum attainable weight. -/
def mastery_bands : List ((Int × Int) × ℚ) :=
  [((1, 2), 25), ((3, 4), 65), ((5, 6), 85), ((7, 8), 100)]

/-- Loop body of `compute_mastery_score` for one `(levels, weight)` entry
of `mastery_bands`: `none` when the band has no attempts (the loop
`continue`s), otherwise the band score.  `item[0] in levels` on the
2-tuple is membership, and `sum(relevant)` counts the `True` entries. -/
def band_entry (answers : List AnswerRecord) (bw : (Int × Int) × ℚ) : Option ℚ :=
  let relevant := (answers.filter
    (fun item => item.1 = bw.1.1 ∨ item.1 = bw.1.2)).map (fun item => item.2.1)
  let attempts := relevant.length
  if attempts = 0 then none
  else
    let acc : ℚ := (relevant.count true : ℚ) / (attempts : ℚ)
    let normalized_score := max ((acc - 0.25) / 0.75) 0
    if attempts < 3 then
      some (normalized_score * bw.2 * ((attempts : ℚ) / 3))
    else
      some (normalized_score * bw.2)

/-- Translation of `compute_mastery_score` (lines 826-860): for each band
with at least one attempt, rescale accuracy from the [0.25, 1] range onto
[0, 1], discount by attempt volume below 3 attempts, weight by the band
maximum; the result is the rounded maximum of the band scores, `0` for an
empty answer list or when no band collected a score.  The loop appending
to `band_scores` is `filterMap (band_entry answers)` over the band list,
and Python's `max(band_scores)` is a left fold of `max` over the first
element. -/
def compute_mastery_score (answers : List AnswerRecord) : Int :=
  if answers.isEmpty then 0
  else
    match mastery_bands.filterMap (band_entry answers) with
    | [] => 0
    | b :: bs => pyRound (bs.foldl max b)

/-- The spec's banded reference formula, transcribed from the words of
§4.5 for comparison with `compute_mastery_score`: per band, `accuracy =
correct/attempts`, `normalized = max((accuracy - 0.25)/0.75, 0)`,
`bandScore = normalized * weight * (attempts/3)` below 3 attempts and
`normalized * weight` otherwise, defined only for bands with at least one
attempt. -/
def specBandScore (answers : List AnswerRecord) (lo hi : Int) (weight : ℚ) :
    Option ℚ :=
  let inBand := answers.filter (fun a => a.1 = lo ∨ a.1 = hi)
  let attempts := inBand.length
  if attempts = 0 then none
  else
    let correct := inBand.countP (fun a => a.2.1)
    let accuracy : ℚ := (correct : ℚ) / (attempts : ℚ)
    let normalized := max ((accuracy - 0.25) / 0.75) 0
    if attempts < 3 then some (normalized * weight * ((attempts : ℚ) / 3))
    else some (normalized * weight)

/-- Maximum of two optional band scores (a band with no data contributes
nothing). -/
def omax : Option ℚ → Option ℚ → Option ℚ
  | none, y => y
  | some a, none => some a
  | some a, some b => some (max a b)

/-- The spec's overall score: the rounded maximum of the band scores over
the four bands `{1,2}→25, {3,4}→65, {5,6}→85, {7,8}→100` that have
attempts, and `0` when no band has data. -/
def spec_mastery_score (answers : List AnswerRecord) : Int :=
  let s12 := specBandScore answers 1 2 25
  let s34 := specBandScore answers 3 4 65
  let s56 := specBandScore answers 5 6 85
  let s78 := specBandScore answers 7 8 100
  match omax (omax s12 s34) (omax s56 s78) with
  | none => 0
  | some m => pyRound m

/-- The mutable `quiz_state` dictionary of the session (initialised at
lines 1279-1288).  `current_q` and `current_q_idx` are always set and
cleared together in the source. -/
structure QuizState where
  current_difficulty : Int
  asked : Finset (Int × Nat)
  answers : List AnswerRecord
  quiz_end : Bool
  current_q_idx : Option Nat
  current_q : Option Question
  show_explanation : Bool
  last_correct : Option Bool

/-- Initial session state: tier 4, everything else empty/false. -/
def initQuizState : QuizState :=
  { current_difficulty := 4
    asked := ∅
    answers := []
    quiz_end := false
    current_q_idx := none
    current_q := none
    show_explanation := false
    last_correct := none }

/-- The four states of §4.6. -/
inductive QuizPhase where
  | Selecting
  | AwaitingAnswer
  | ShowingFeedback
  | Complete
deriving DecidableEq

/-- The phase `render_quiz` dispatches on, in source order: `quiz_end` is
checked first (line 1301), then `current_q is None and not
show_explanation` selects the next question (line 1306), then
`show_explanation` decides between the answer form and the feedback view
(line 1345). -/
def phase (s : QuizState) : QuizPhase :=
  if s.quiz_end then QuizPhase.Complete
  else if s.current_q = none ∧ s.show_explanation = false then QuizPhase.Selecting
  else if s.show_explanation then QuizPhase.ShowingFeedback
  else QuizPhase.AwaitingAnswer

/-- The `Selecting` branch of `render_quiz` (lines 1306-1314): draw the
next question; on `None` end the quiz, otherwise store the pending
question, its index and the (unchanged) difficulty. -/
def select_step (rng : RngState) (s : QuizState)
    (all_qs : Int → List Question) : QuizState × RngState :=
  match get_next_question rng s.current_difficulty s.asked all_qs with
  | ((diff, idx, some q), rng2) =>
      ({ s with current_q := some q, current_q_idx := idx,
                current_difficulty := diff }, rng2)
  | ((_, _, none), rng2) => ({ s with quiz_end := true }, rng2)

/-- The comparison at lines 1366-1368: the letter before the first dot of
the rendered option, stripped and uppercased, against the stripped and
uppercased correct letter. -/
def answer_correct (selected : String) (q : Question) : Bool :=
  ((selected.splitOn ".").headD "").trim.toUpper == q.correct_answer.trim.toUpper

/-- The submit branch of `render_quiz` (lines 1362-1391): record the
`(difficulty, correct, question)` answer, add `(difficulty, index)` to
`asked`, remember correctness, raise the explanation flag, and end the
quiz if the recomputed score reaches 70.  In the source `current_q` and
`current_q_idx` are always both set in this branch; the fallthrough
returns the state unchanged. -/
def submit_step (s : QuizState) (selected : String) : QuizState :=
  match s.current_q, s.current_q_idx with
  | some q, some i =>
    let correct := answer_correct selected q
    let answers2 := s.answers ++ [(s.current_difficulty, correct, q)]
    let s2 := { s with
      asked := insert (s.current_difficulty, i) s.asked
      answers := answers2
      last_correct := some correct
      show_explanation := true }
    if 70 ≤ compute_mastery_score answers2 then { s2 with quiz_end := true }
    else s2
  | _, _ => s

/-- The `Next Question` branch (lines 1418-1433): move the difficulty with
`find_next_difficulty` (up on a correct last answer — `if
state["last_correct"]:` is Python truthiness, so `None` goes down), then
clear the pending question and flags. -/
def acknowledge_step (s : QuizState) (all_qs : Int → List Question) : QuizState :=
  let d := find_next_difficulty s.current_difficulty (s.last_correct.getD false)
    s.asked all_qs
  { s with current_difficulty := d
           current_q := none
           current_q_idx := none
           show_explanation := false
           last_correct := none }

/-- One transition of the session state machine, for any ambient generator
state and any submitted option string. -/
inductive Step (all_qs : Int → List Question) : QuizState → QuizState → Prop
  | select (rng : RngState) (s : QuizState) :
      phase s = QuizPhase.Selecting → Step all_qs s (select_step rng s all_qs).1
  | submit (selected : String) (s : QuizState) :
      phase s = QuizPhase.AwaitingAnswer → Step all_qs s (submit_step s selected)
  | ack (s : QuizState) :
      phase s = QuizPhase.ShowingFeedback → Step all_qs s (acknowledge_step s all_qs)

/-- A session state reachable from the initial state by engine
transitions. -/
def Reachable (all_qs : Int → List Question) (s : QuizState) : Prop :=
  Relation.ReflTransGen (Step all_qs) initQuizState s

/-- Fixture question with an out-of-domain estimated percentage (150). -/
def qPct (v : PctVal) : Question :=
  { question := "sample"
    options := ["A. x", "B. y", "C. z", "D. w"]
    correct_answer := "A"
    explanation := "because"
    estimated_correct_pct := some v }

/-- Fixture question lacking the `estimated_correct_pct` field. -/
def qNoPct : Question :=
  { question := "sample"
    options := ["A. x", "B. y", "C. z", "D. w"]
    correct_answer := "A"
    explanation := "because"
    estimated_correct_pct := none }

/-- Fixture question at tier 4 (estimated percentage 70). -/
def qAlpha : Question :=
  { question := "alpha"
    options := ["A. x", "B. y", "C. z", "D. w"]
    correct_answer := "A"
    explanation := "because"
    estimated_correct_pct := some (PctVal.num 70) }

/-- Second fixture question at tier 4. -/
def qBeta : Question :=
  { qAlpha with question := "beta" }

/-- Fixture question at tier 5 (estimated percentage 55). -/
def qGamma : Question :=
  { qAlpha with
    question := "gamma"
    estimated_correct_pct := some (PctVal.num 55) }

/-- Fixture questions at tier 7 (estimated percentage 35). -/
def qHard1 : Question :=
  { qAlpha with
    question := "hard one"
    estimated_correct_pct := some (PctVal.num 35) }

/-- Second tier-7 fixture. -/
def qHard2 : Question :=
  { qHard1 with question := "hard two" }

/-- Third tier-7 fixture. -/
def qHard3 : Question :=
  { qHard1 with question := "hard three" }

/-- Pool with two questions in tier 4. -/
def pool44 : Int → List Question :=
  group_by_difficulty [qAlpha, qBeta]

/-- Pool with one question in tier 4 and one in tier 5. -/
def pool45 : Int → List Question :=
  group_by_difficulty [qAlpha, qGamma]

/-- Pool with a single question in tier 4. -/
def pool4 : Int → List Question :=
  group_by_difficulty [qAlpha]

/-- Pool with three questions in tier 7. -/
def pool7 : Int → List Question :=
  group_by_difficulty [qHard1, qHard2, qHard3]

/-- Session state over `pool4` after answering its only question wrong:
back in the selection phase with the tier-4 pool exhausted and a score
below the mastery threshold. -/
def sExhausted : QuizState :=
  { current_difficulty := 4
    asked := {((4 : Int), (0 : Nat))}
    answers := [(4, false, qAlpha)]
    quiz_end := false
    current_q_idx := none
    current_q := none
    show_explanation := false
    last_correct := none }

/-- Session state awaiting the answer to a tier-7 question after four
correct tier-7 answers (enough that the next submission pushes the
recomputed score past 70 whether or not it is correct). -/
def sAwaiting7 : QuizState :=
  { current_difficulty := 7
    asked := {((7 : Int), (0 : Nat)), ((7 : Int), (1 : Nat))}
    answers := [(7, true, qHard1), (7, true, qHard2),
                (7, true, qHard1), (7, true, qHard2)]
    quiz_end := false
    current_q_idx := some 2
    current_q := some qHard3
    show_explanation := false
    last_correct := some true }

/-- Initial session state with the first tier-4 question of `pool44`
pending. -/
def sAwaiting4 : QuizState :=
  { initQuizState with current_q := some qAlpha, current_q_idx := some 0 }

/-! ### Basic lemmas about the classifier and the pool -/

lemma assign_range {v : PctVal} {t : Int}
    (h : assign_difficulty_label v = some t) : 1 ≤ t ∧ t ≤ 8 := by
  cases v with
  | nonNumeric => simp [assign_difficulty_label, pyInt] at h
  | num n =>
    simp only [assign_difficulty_label, pyInt] at h
    split_ifs at h <;> (injection h with h; omega)

lemma assign_num_isSome (n : Int) :
    ∃ t : Int, assign_difficulty_label (PctVal.num n) = some t := by
  simp only [assign_difficulty_label, pyInt]
  split_ifs <;> exact ⟨_, rfl⟩

lemma group_go_eq (qs : List Question) : ∀ (groups : Int → List Question) (d : Int),
    group_go qs groups d =
      groups d ++ qs.filter (fun q => assign_difficulty_label (pctField q) == some d) := by
  induction qs with
  | nil => intro groups d; simp [group_go]
  | cons q rest ih =>
    intro groups d
    show group_go (q :: rest) groups d = _
    rw [List.filter_cons]
    cases h : assign_difficulty_label (pctField q) with
    | none =>
      have hstep : group_go (q :: rest) groups = group_go rest groups := by
        simp only [group_go, h]
      rw [hstep, ih]
      simp
    | some label =>
      have hstep : group_go (q :: rest) groups =
          group_go rest (fun e => if e = label then groups e ++ [q] else groups e) := by
        simp only [group_go, h]
      rw [hstep, ih]
      by_cases hd : d = label
      · subst hd
        simp
      · have hne : ¬ label = d := fun hc => hd hc.symm
        simp [hd, hne]

lemma group_by_difficulty_eq (qs : List Question) (d : Int) :
    group_by_difficulty qs d =
      qs.filter (fun q => assign_difficulty_label (pctField q) == some d) := by
  rw [group_by_difficulty, group_go_eq]
  simp

lemma group_by_difficulty_out_of_range (qs : List Question) (d : Int)
    (hd : d < 1 ∨ 8 < d) : group_by_difficulty qs d = [] := by
  rw [group_by_difficulty_eq]
  apply List.filter_eq_nil_iff.2
  intro q _
  simp only [beq_iff_eq]
  intro h
  have := assign_range h
  omega

/-! ### C3: the classifier boundary table -/

/-- C3: `assign_difficulty_label` is exactly the spec's step function on
every in-domain percentage: `pct < 30` gives tier 8, `[30,40)` gives 7,
`[40,50)` gives 6, `[50,65)` gives 5, `[65,75)` gives 4, `[75,85)` gives
3, `[85,90)` gives 2, and `pct ≥ 90` gives 1. -/
theorem assign_difficulty_label_table (pct : Int) (h0 : 0 ≤ pct)
    (h100 : pct ≤ 100) :
    (pct < 30 → assign_difficulty_label (PctVal.num pct) = some 8)
    ∧ (30 ≤ pct → pct < 40 → assign_difficulty_label (PctVal.num pct) = some 7)
    ∧ (40 ≤ pct → pct < 50 → assign_difficulty_label (PctVal.num pct) = some 6)
    ∧ (50 ≤ pct → pct < 65 → assign_difficulty_label (PctVal.num pct) = some 5)
    ∧ (65 ≤ pct → pct < 75 → assign_difficulty_label (PctVal.num pct) = some 4)
    ∧ (75 ≤ pct → pct < 85 → assign_difficulty_label (PctVal.num pct) = some 3)
    ∧ (85 ≤ pct → pct < 90 → assign_difficulty_label (PctVal.num pct) = some 2)
    ∧ (90 ≤ pct → assign_difficulty_label (PctVal.num pct) = some 1) := by
  refine ⟨fun h => ?_, fun h1 h2 => ?_, fun h1 h2 => ?_, fun h1 h2 => ?_,
    fun h1 h2 => ?_, fun h1 h2 => ?_, fun h1 h2 => ?_, fun h1 => ?_⟩ <;>
    simp only [assign_difficulty_label, pyInt] <;>
    split_ifs <;> first | rfl | (exfalso; omega)

/-- Witness for C3 at the boundary value 29: the theorem applied at a
concrete in-domain percentage. -/
theorem assign_difficulty_label_table_witness :
    assign_difficulty_label (PctVal.num 29) = some 8 :=
  (assign_difficulty_label_table 29 (by decide) (by decide)).1 (by decide)

/-! ### C4: behaviour on non-numeric and out-of-domain percentages -/

/-- C4 counterexample: the claim says every out-of-domain percentage
(outside 0-100) yields `invalid` and is dropped from the pool.  The code
has no domain check: `int(150)` succeeds, `150 < 90` is false on every
branch, so the final `else` classifies it as tier 1, and
`group_by_difficulty` keeps the question.  (The source's only `invalid`
path is the bare `except` around `int(...)`.) -/
theorem out_of_domain_pct_not_invalid :
    assign_difficulty_label (PctVal.num 150) = some 1
    ∧ qPct (PctVal.num 150) ∈ group_by_difficulty [qPct (PctVal.num 150)] 1 := by
  constructor
  · rfl
  · decide

/-- C4 amended: only non-numeric input (failing `int()` conversion) yields
`invalid` and is silently dropped from every tier of the pool; numeric
out-of-domain input is still classified — any value `≥ 90` (including
values above 100) lands in tier 1 and any negative value in tier 8 — and
every question with a numeric percentage is kept in some tier. -/
theorem classify_domain_behavior :
    (∀ (qs : List Question) (q : Question), pyInt (pctField q) = none →
        ∀ d : Int, q ∉ group_by_difficulty qs d)
    ∧ (∀ n : Int, 90 ≤ n → assign_difficulty_label (PctVal.num n) = some 1)
    ∧ (∀ n : Int, n < 0 → assign_difficulty_label (PctVal.num n) = some 8)
    ∧ (∀ (qs : List Question) (q : Question) (n : Int), q ∈ qs →
        pyInt (pctField q) = some n →
        ∃ d : Int, q ∈ group_by_difficulty qs d) := by
  refine ⟨?_, ?_, ?_, ?_⟩
  · intro qs q hnone d hmem
    rw [group_by_difficulty_eq] at hmem
    have := (List.mem_filter.1 hmem).2
    simp only [beq_iff_eq, assign_difficulty_label, hnone] at this
    exact Option.noConfusion this
  · intro n hn
    simp only [assign_difficulty_label, pyInt]
    split_ifs <;> first | rfl | (exfalso; omega)
  · intro n hn
    simp only [assign_difficulty_label, pyInt]
    split_ifs <;> first | rfl | (exfalso; omega)
  · intro qs q n hmem hsome
    have hval : pctField q = PctVal.num n := by
      cases hv : pctField q with
      | num m => rw [hv] at hsome; injection hsome with h; rw [h]
      | nonNumeric => rw [hv] at hsome; exact absurd hsome (by simp [pyInt])
    obtain ⟨t, ht⟩ := assign_num_isSome n
    refine ⟨t, ?_⟩
    rw [group_by_difficulty_eq]
    exact List.mem_filter.2 ⟨hmem, by rw [hval, ht]; simp⟩

/-- Witness for C4's amended statement: a non-numeric percentage is
dropped from tier 8, and the out-of-domain value 150 is classified as
tier 1. -/
theorem classify_domain_behavior_witness :
    qPct PctVal.nonNumeric ∉ group_by_difficulty [qPct PctVal.nonNumeric] 8
    ∧ assign_difficulty_label (PctVal.num 150) = some 1 :=
  ⟨classify_domain_behavior.1 [qPct PctVal.nonNumeric] (qPct PctVal.nonNumeric)
      (by decide) 8,
   classify_domain_behavior.2.1 150 (by decide)⟩

/-! ### C10: records lacking the percentage field -/

/-- C10: a question record lacking the `estimated_correct_pct` field is
given the default percentage 0 by `q.get("estimated_correct_pct", 0)`,
classified into tier 8 (hardest), and kept in the pool; a question is
dropped from every tier exactly when its present percentage value fails
integer conversion. -/
theorem missing_pct_defaults_tier8 (qs : List Question) (q : Question)
    (hmem : q ∈ qs) (hmiss : q.estimated_correct_pct = none) :
    q ∈ group_by_difficulty qs 8
    ∧ ∀ q2 : Question, q2 ∈ qs →
        ((∀ d : Int, q2 ∉ group_by_difficulty qs d) ↔ pyInt (pctField q2) = none) := by
  constructor
  · have hval : pctField q = PctVal.num 0 := by
      simp [pctField, hmiss]
    rw [group_by_difficulty_eq]
    refine List.mem_filter.2 ⟨hmem, ?_⟩
    rw [hval]
    decide
  · intro q2 hmem2
    constructor
    · intro hall
      cases hv : pyInt (pctField q2) with
      | none => rfl
      | some n =>
        exfalso
        have hval : pctField q2 = PctVal.num n := by
          cases hw : pctField q2 with
          | num m => rw [hw] at hv; injection hv with h; rw [h]
          | nonNumeric => rw [hw] at hv; exact absurd hv (by simp [pyInt])
        obtain ⟨t, ht⟩ := assign_num_isSome n
        refine hall t ?_
        rw [group_by_difficulty_eq]
        exact List.mem_filter.2 ⟨hmem2, by rw [hval, ht]; simp⟩
    · intro hnone d hin
      rw [group_by_difficulty_eq] at hin
      have := (List.mem_filter.1 hin).2
      simp only [beq_iff_eq, assign_difficulty_label, hnone] at this
      exact Option.noConfusion this

/-- Witness for C10: a concrete field-less question lands in tier 8 of the
pool built from it. -/
theorem missing_pct_defaults_tier8_witness :
    qNoPct ∈ group_by_difficulty [qNoPct] 8 :=
  (missing_pct_defaults_tier8 [qNoPct] qNoPct (by decide) (by decide)).1

/-! ### Lemmas about the navigator's directional search -/

lemma bang_isEmpty_iff {α : Type} (l : List α) : ((!l.isEmpty) = true) ↔ l ≠ [] := by
  cases l <;> simp

lemma intRange_find_some (p : Int → Bool) :
    ∀ (n : Nat) (a r : Int), (intRange a n).find? p = some r →
      a ≤ r ∧ r < a + n ∧ p r = true ∧
      ∀ d : Int, a ≤ d → d < a + n → p d = true → r ≤ d := by
  intro n
  induction n with
  | zero => intro a r h; simp [intRange] at h
  | succ m ih =>
    intro a r h
    rw [intRange, List.find?_cons] at h
    cases hp : p a with
    | true =>
      rw [hp] at h
      injection h with h
      subst h
      refine ⟨le_refl _, by omega, hp, fun d hd _ _ => hd⟩
    | false =>
      rw [hp] at h
      obtain ⟨hr1, hr2, hr3, hr4⟩ := ih (a + 1) r h
      refine ⟨by omega, by omega, hr3, fun d hd1 hd2 hd3 => ?_⟩
      rcases eq_or_lt_of_le hd1 with heq | hlt
      · exfalso; rw [← heq] at hd3; rw [hd3] at hp; exact Bool.noConfusion hp
      · exact hr4 d (by omega) (by omega) hd3

lemma intRange_find_none (p : Int → Bool) :
    ∀ (n : Nat) (a : Int), (intRange a n).find? p = none →
      ∀ d : Int, a ≤ d → d < a + n → p d = false := by
  intro n
  induction n with
  | zero => intro a _ d hd1 hd2; omega
  | succ m ih =>
    intro a h d hd1 hd2
    rw [intRange, List.find?_cons] at h
    cases hp : p a with
    | true => rw [hp] at h; exact Option.noConfusion h
    | false =>
      rw [hp] at h
      rcases eq_or_lt_of_le hd1 with heq | hlt
      · rw [← heq]; exact hp
      · exact ih (a + 1) h d (by omega) (by omega)

lemma intRangeDown_find_some (p : Int → Bool) :
    ∀ (n : Nat) (a r : Int), (intRangeDown a n).find? p = some r →
      a - n < r ∧ r ≤ a ∧ p r = true ∧
      ∀ d : Int, a - n < d → d ≤ a → p d = true → d ≤ r := by
  intro n
  induction n with
  | zero => intro a r h; simp [intRangeDown] at h
  | succ m ih =>
    intro a r h
    rw [intRangeDown, List.find?_cons] at h
    cases hp : p a with
    | true =>
      rw [hp] at h
      injection h with h
      subst h
      refine ⟨by omega, le_refl _, hp, fun d _ hd _ => hd⟩
    | false =>
      rw [hp] at h
      obtain ⟨hr1, hr2, hr3, hr4⟩ := ih (a - 1) r h
      refine ⟨by omega, by omega, hr3, fun d hd1 hd2 hd3 => ?_⟩
      rcases eq_or_lt_of_le hd2 with heq | hlt
      · exfalso; rw [heq] at hd3; rw [hd3] at hp; exact Bool.noConfusion hp
      · exact hr4 d (by omega) (by omega) hd3

lemma intRangeDown_find_none (p : Int → Bool) :
    ∀ (n : Nat) (a : Int), (intRangeDown a n).find? p = none →
      ∀ d : Int, a - n < d → d ≤ a → p d = false := by
  intro n
  induction n with
  | zero => intro a _ d hd1 hd2; omega
  | succ m ih =>
    intro a h d hd1 hd2
    rw [intRangeDown, List.find?_cons] at h
    cases hp : p a with
    | true => rw [hp] at h; exact Option.noConfusion h
    | false =>
      rw [hp] at h
      rcases eq_or_lt_of_le hd2 with heq | hlt
      · rw [heq]; exact hp
      · exact ih (a - 1) h d (by omega) (by omega)

lemma find_next_difficulty_up_def (tier : Int) (asked : Finset (Int × Nat))
    (all_qs : Int → List Question) :
    find_next_difficulty tier true asked all_qs =
      (if 1 ≤ tier + 1 ∧ tier + 1 ≤ 8 ∧
          !(pick_question (tier + 1) asked all_qs).isEmpty then tier + 1
       else
        match (intRange (tier + 1 + 1) (8 - (tier + 1)).toNat).find?
            (fun d => !(pick_question d asked all_qs).isEmpty) with
        | some d => d
        | none => tier) := rfl

lemma find_next_difficulty_down_def (tier : Int) (asked : Finset (Int × Nat))
    (all_qs : Int → List Question) :
    find_next_difficulty tier false asked all_qs =
      (if 1 ≤ tier - 1 ∧ tier - 1 ≤ 8 ∧
          !(pick_question (tier - 1) asked all_qs).isEmpty then tier - 1
       else
        match (intRangeDown (tier - 1 - 1) (tier - 1 - 1).toNat).find?
            (fun d => !(pick_question d asked all_qs).isEmpty) with
        | some d => d
        | none => tier) := rfl

/-! ### C2: the navigator's directional search -/

/-- C2: for any in-range tier, `find_next_difficulty` returns the
neighbouring tier in the requested direction when it is in range and has
an unasked question, otherwise the nearest tier strictly further in the
same direction with availability, and the original tier unchanged when no
tier in that direction has availability; equivalently, going up the
result is the least available tier in `(tier, 8]` (the input tier when
there is none), and going down it is the greatest available tier in
`[1, tier)` (the input tier when there is none).  In particular it never
moves against the requested direction and never returns an unavailable
tier except in the unchanged-fallback case. -/
theorem find_next_difficulty_correct (tier : Int) (up : Bool)
    (asked : Finset (Int × Nat)) (all_qs : Int → List Question)
    (h1 : 1 ≤ tier) (h8 : tier ≤ 8) :
    (up = true →
      ((∃ d : Int, tier < d ∧ d ≤ 8 ∧ pick_question d asked all_qs ≠ []) →
        tier < find_next_difficulty tier up asked all_qs
        ∧ find_next_difficulty tier up asked all_qs ≤ 8
        ∧ pick_question (find_next_difficulty tier up asked all_qs) asked all_qs ≠ []
        ∧ ∀ d : Int, tier < d → d ≤ 8 → pick_question d asked all_qs ≠ [] →
            find_next_difficulty tier up asked all_qs ≤ d)
      ∧ ((¬ ∃ d : Int, tier < d ∧ d ≤ 8 ∧ pick_question d asked all_qs ≠ []) →
          find_next_difficulty tier up asked all_qs = tier))
    ∧ (up = false →
      ((∃ d : Int, 1 ≤ d ∧ d < tier ∧ pick_question d asked all_qs ≠ []) →
        find_next_difficulty tier up asked all_qs < tier
        ∧ 1 ≤ find_next_difficulty tier up asked all_qs
        ∧ pick_question (find_next_difficulty tier up asked all_qs) asked all_qs ≠ []
        ∧ ∀ d : Int, 1 ≤ d → d < tier → pick_question d asked all_qs ≠ [] →
            d ≤ find_next_difficulty tier up asked all_qs)
      ∧ ((¬ ∃ d : Int, 1 ≤ d ∧ d < tier ∧ pick_question d asked all_qs ≠ []) →
          find_next_difficulty tier up asked all_qs = tier)) := by
  constructor
  · rintro rfl
    rw [find_next_difficulty_up_def]
    split_ifs with hc
    · obtain ⟨-, hle8, havail⟩ := hc
      have hav := (bang_isEmpty_iff _).1 havail
      constructor
      · intro _
        exact ⟨by omega, hle8, hav, fun d hd _ _ => by omega⟩
      · intro hnone
        exact absurd ⟨tier + 1, by omega, hle8, hav⟩ hnone
    · cases hf : (intRange (tier + 1 + 1) (8 - (tier + 1)).toNat).find?
          (fun d => !(pick_question d asked all_qs).isEmpty) with
      | some r =>
        obtain ⟨hr1, hr2, hr3, hr4⟩ := intRange_find_some _ _ _ _ hf
        have hr8 : r ≤ 8 := by omega
        have hrav : pick_question r asked all_qs ≠ [] := (bang_isEmpty_iff _).1 hr3
        constructor
        · intro _
          refine ⟨show tier < r by omega, hr8, hrav, fun d hd1 hd2 hd3 => ?_⟩
          rcases eq_or_lt_of_le (show tier + 1 ≤ d by omega) with heq | hlt
          · exfalso
            exact hc ⟨by omega, by omega, (bang_isEmpty_iff _).2 (heq ▸ hd3)⟩
          · exact hr4 d (by omega) (by omega) ((bang_isEmpty_iff _).2 hd3)
        · intro hnone
          exact absurd ⟨r, by omega, hr8, hrav⟩ hnone
      | none =>
        have hno := intRange_find_none _ _ _ hf
        constructor
        · intro hex
          exfalso
          obtain ⟨d, hd1, hd2, hd3⟩ := hex
          rcases eq_or_lt_of_le (show tier + 1 ≤ d by omega) with heq | hlt
          · exact hc ⟨by omega, by omega, (bang_isEmpty_iff _).2 (heq ▸ hd3)⟩
          · have hfalse := hno d (by omega) (by omega)
            have htrue := (bang_isEmpty_iff _).2 hd3
            rw [htrue] at hfalse
            exact Bool.noConfusion hfalse
        · intro _
          rfl
  · rintro rfl
    rw [find_next_difficulty_down_def]
    split_ifs with hc
    · obtain ⟨hge1, -, havail⟩ := hc
      have hav := (bang_isEmpty_iff _).1 havail
      constructor
      · intro _
        exact ⟨by omega, hge1, hav, fun d _ hd _ => by omega⟩
      · intro hnone
        exact absurd ⟨tier - 1, hge1, by omega, hav⟩ hnone
    · cases hf : (intRangeDown (tier - 1 - 1) (tier - 1 - 1).toNat).find?
          (fun d => !(pick_question d asked all_qs).isEmpty) with
      | some r =>
        obtain ⟨hr1, hr2, hr3, hr4⟩ := intRangeDown_find_some _ _ _ _ hf
        have hrge : 1 ≤ r := by omega
        have hrav : pick_question r asked all_qs ≠ [] := (bang_isEmpty_iff _).1 hr3
        constructor
        · intro _
          refine ⟨show r < tier by omega, hrge, hrav, fun d hd1 hd2 hd3 => ?_⟩
          rcases eq_or_lt_of_le (show d ≤ tier - 1 by omega) with heq | hlt
          · exfalso
            exact hc ⟨by omega, by omega, (bang_isEmpty_iff _).2 (heq ▸ hd3)⟩
          · exact hr4 d (by omega) (by omega) ((bang_isEmpty_iff _).2 hd3)
        · intro hnone
          exact absurd ⟨r, hrge, by omega, hrav⟩ hnone
      | none =>
        have hno := intRangeDown_find_none _ _ _ hf
        constructor
        · intro hex
          exfalso
          obtain ⟨d, hd1, hd2, hd3⟩ := hex
          rcases eq_or_lt_of_le (show d ≤ tier - 1 by omega) with heq | hlt
          · exact hc ⟨by omega, by omega, (bang_isEmpty_iff _).2 (heq ▸ hd3)⟩
          · have hfalse := hno d (by omega) (by omega)
            have htrue := (bang_isEmpty_iff _).2 hd3
            rw [htrue] at hfalse
            exact Bool.noConfusion hfalse
        · intro _
          rfl

/-! ### C1: the mastery scorer matches the banded reference formula -/

lemma count_true_map_snd (l : List AnswerRecord) :
    (l.map (fun item => item.2.1)).count true = l.countP (fun a => a.2.1) := by
  rw [List.count_eq_countP, List.countP_map]
  congr 1
  funext a
  cases h : a.2.1 <;> simp [h]

lemma band_entry_eq_spec (answers : List AnswerRecord) (lo hi : Int) (w : ℚ) :
    band_entry answers ((lo, hi), w) = specBandScore answers lo hi w := by
  unfold band_entry specBandScore
  simp only [List.length_map, count_true_map_snd]

lemma compute_eq_spec (answers : List AnswerRecord) :
    compute_mastery_score answers = spec_mastery_score answers := by
  by_cases hnil : answers = []
  · subst hnil; rfl
  · have hE : answers.isEmpty = false := by
      cases answers with
      | nil => exact absurd rfl hnil
      | cons a l => rfl
    unfold compute_mastery_score spec_mastery_score
    rw [hE]
    simp only [Bool.false_eq_true, if_false, mastery_bands, List.filterMap_cons,
      List.filterMap_nil, band_entry_eq_spec]
    cases h12 : specBandScore answers 1 2 25 <;>
      cases h34 : specBandScore answers 3 4 65 <;>
      cases h56 : specBandScore answers 5 6 85 <;>
      cases h78 : specBandScore answers 7 8 100 <;>
      simp [omax, max_assoc]

lemma band_entry_bounds (answers : List AnswerRecord) (bw : (Int × Int) × ℚ)
    (hw0 : 0 ≤ bw.2) (hw100 : bw.2 ≤ 100) (b : ℚ)
    (hb : band_entry answers bw = some b) : 0 ≤ b ∧ b ≤ 100 := by
  unfold band_entry at hb
  simp only [List.length_map, count_true_map_snd] at hb
  set l := answers.filter (fun item => item.1 = bw.1.1 ∨ item.1 = bw.1.2) with hl
  by_cases hz : l.length = 0
  · rw [if_pos hz] at hb
    exact Option.noConfusion hb
  · rw [if_neg hz] at hb
    have hlen : 0 < (l.length : ℚ) := by
      have : 0 < l.length := Nat.pos_of_ne_zero hz
      exact_mod_cast this
    have hcle : l.countP (fun a => a.2.1) ≤ l.length := List.countP_le_length _
    have hacc0 : (0 : ℚ) ≤ (l.countP (fun a => a.2.1) : ℚ) / (l.length : ℚ) :=
      div_nonneg (by positivity) (le_of_lt hlen)
    have hacc1 : (l.countP (fun a => a.2.1) : ℚ) / (l.length : ℚ) ≤ 1 := by
      rw [div_le_one hlen]
      exact_mod_cast hcle
    set acc : ℚ := (l.countP (fun a => a.2.1) : ℚ) / (l.length : ℚ) with hacc
    have hn0 : (0 : ℚ) ≤ max ((acc - 0.25) / 0.75) 0 := le_max_right _ _
    have hn1 : max ((acc - 0.25) / 0.75) 0 ≤ 1 := by
      apply max_le
      · rw [div_le_one (by norm_num : (0 : ℚ) < 0.75)]
        linarith
      · norm_num
    set nrm : ℚ := max ((acc - 0.25) / 0.75) 0 with hnrm
    by_cases h3 : l.length < 3
    · rw [if_pos h3] at hb
      injection hb with hb
      subst hb
      have hr0 : (0 : ℚ) ≤ (l.length : ℚ) / 3 := by positivity
      have hr1 : (l.length : ℚ) / 3 ≤ 1 := by
        rw [div_le_one (by norm_num : (0 : ℚ) < 3)]
        have : l.length ≤ 3 := by omega
        exact_mod_cast this
      constructor
      · exact mul_nonneg (mul_nonneg hn0 hw0) hr0
      · calc nrm * bw.2 * ((l.length : ℚ) / 3)
            ≤ nrm * bw.2 * 1 :=
              mul_le_mul_of_nonneg_left hr1 (mul_nonneg hn0 hw0)
          _ = nrm * bw.2 := mul_one _
          _ ≤ 1 * bw.2 := mul_le_mul_of_nonneg_right hn1 hw0
          _ = bw.2 := one_mul _
          _ ≤ 100 := hw100
    · rw [if_neg h3] at hb
      injection hb with hb
      subst hb
      constructor
      · exact mul_nonneg hn0 hw0
      · calc nrm * bw.2 ≤ 1 * bw.2 := mul_le_mul_of_nonneg_right hn1 hw0
          _ = bw.2 := one_mul _
          _ ≤ 100 := hw100

lemma foldl_max_bounds :
    ∀ (bs : List ℚ) (b : ℚ), 0 ≤ b → b ≤ 100 →
      (∀ x ∈ bs, 0 ≤ x ∧ x ≤ 100) →
      0 ≤ bs.foldl max b ∧ bs.foldl max b ≤ 100 := by
  intro bs
  induction bs with
  | nil => intro b h0 h100 _; exact ⟨h0, h100⟩
  | cons x rest ih =>
    intro b h0 h100 hall
    have hx := hall x (List.mem_cons_self x rest)
    refine ih (max b x) (le_trans h0 (le_max_left _ _)) (max_le h100 hx.2) ?_
    intro y hy
    exact hall y (List.mem_cons_of_mem _ hy)

lemma pyRound_bounds (x : ℚ) (h0 : 0 ≤ x) (h100 : x ≤ 100) :
    0 ≤ pyRound x ∧ pyRound x ≤ 100 := by
  have hfl0 : 0 ≤ ⌊x⌋ := by
    rw [Int.le_floor]
    exact_mod_cast h0
  have hfl100 : ⌊x⌋ ≤ 100 := by
    calc ⌊x⌋ ≤ ⌊(100 : ℚ)⌋ := Int.floor_le_floor h100
      _ = 100 := by norm_num
  have hle : (⌊x⌋ : ℚ) ≤ x := Int.floor_le x
  unfold pyRound
  simp only []
  split_ifs with hc1 hc2 hpar
  · exact ⟨hfl0, hfl100⟩
  · have h99 : ⌊x⌋ ≤ 99 := by
      by_contra hno
      push_neg at hno
      have h100fl : (100 : ℚ) ≤ (⌊x⌋ : ℚ) := by exact_mod_cast hno
      have : x - ⌊x⌋ ≤ 0 := by linarith
      linarith
    omega
  · exact ⟨hfl0, hfl100⟩
  · have h99 : ⌊x⌋ ≤ 99 := by
      by_contra hno
      push_neg at hno
      have h100fl : (100 : ℚ) ≤ (⌊x⌋ : ℚ) := by exact_mod_cast hno
      have hfr : ¬ (x - ⌊x⌋ < 1 / 2) := hc1
      push_neg at hfr
      linarith
    omega

lemma compute_mastery_score_bounds (answers : List AnswerRecord) :
    0 ≤ compute_mastery_score answers ∧ compute_mastery_score answers ≤ 100 := by
  unfold compute_mastery_score
  split_ifs with hE
  · exact ⟨le_refl 0, by norm_num⟩
  · cases hscores : mastery_bands.filterMap (band_entry answers) with
    | nil => exact ⟨le_refl 0, by norm_num⟩
    | cons b bs =>
      have hmem : ∀ x ∈ b :: bs, (0 : ℚ) ≤ x ∧ x ≤ 100 := by
        intro x hx
        rw [← hscores] at hx
        obtain ⟨bw, hbw, hbe⟩ := List.mem_filterMap.1 hx
        have hw : 0 ≤ bw.2 ∧ bw.2 ≤ 100 := by
          simp only [mastery_bands, List.mem_cons, List.not_mem_nil, or_false]
            at hbw
          rcases hbw with rfl | rfl | rfl | rfl <;> norm_num
        exact band_entry_bounds answers bw hw.1 hw.2 x hbe
      have hb := hmem b (List.mem_cons_self b bs)
      have hall : ∀ x ∈ bs, (0 : ℚ) ≤ x ∧ x ≤ 100 := by
        intro x hx
        exact hmem x (List.mem_cons_of_mem _ hx)
      obtain ⟨hf0, hf100⟩ := foldl_max_bounds bs b hb.1 hb.2 hall
      exact pyRound_bounds _ hf0 hf100

/-- C1: for every list of answer records, `compute_mastery_score` returns
an integer in [0, 100] equal to the spec's banded reference formula
(`spec_mastery_score`: per-band rescaled accuracy, attempt-volume
discount below 3 attempts, rounded maximum over bands with attempts, 0
with no band data), and in particular the score of an empty answer list
is 0. -/
theorem compute_mastery_score_correct (answers : List AnswerRecord) :
    compute_mastery_score answers = spec_mastery_score answers
    ∧ 0 ≤ compute_mastery_score answers
    ∧ compute_mastery_score answers ≤ 100
    ∧ compute_mastery_score [] = 0 :=
  ⟨compute_eq_spec answers, (compute_mastery_score_bounds answers).1,
   (compute_mastery_score_bounds answers).2, rfl⟩


/-! ### Lemmas about the selector -/

lemma random_choice_mem {α : Type} (r : RngState) (l : List α) (x : α)
    (r2 : RngState) (h : random_choice r l = some (x, r2)) : x ∈ l := by
  cases l with
  | nil => exact Option.noConfusion h
  | cons a as =>
    simp only [random_choice] at h
    injection h with h2
    have h1 : (a :: as).get ⟨(rand_draw r).1 % (as.length + 1),
        Nat.mod_lt _ (Nat.succ_pos _)⟩ = x := congrArg Prod.fst h2
    rw [← h1]
    exact List.get_mem _ _ _

lemma get_next_question_cases (rng : RngState) (tier : Int)
    (asked : Finset (Int × Nat)) (all_qs : Int → List Question) :
    (pick_question tier asked all_qs = [] →
      get_next_question rng tier asked all_qs = ((tier, none, none), rng))
    ∧ (pick_question tier asked all_qs ≠ [] →
      ∃ (i : Nat) (q : Question) (rng2 : RngState),
        get_next_question rng tier asked all_qs = ((tier, some i, some q), rng2)
        ∧ (i, q) ∈ pick_question tier asked all_qs) := by
  cases hav : pick_question tier asked all_qs with
  | nil =>
    refine ⟨fun _ => ?_, fun hne => absurd rfl hne⟩
    unfold get_next_question
    rw [hav]
    rfl
  | cons p ps =>
    refine ⟨fun heq => absurd heq (by simp), fun _ => ?_⟩
    have hres : get_next_question rng tier asked all_qs =
        ((tier, some ((p :: ps).get ⟨(rand_draw rng).1 % (ps.length + 1),
            Nat.mod_lt _ (Nat.succ_pos _)⟩).1,
          some ((p :: ps).get ⟨(rand_draw rng).1 % (ps.length + 1),
            Nat.mod_lt _ (Nat.succ_pos _)⟩).2), (rand_draw rng).2) := by
      unfold get_next_question
      rw [hav]
      rfl
    refine ⟨_, _, _, hres, ?_⟩
    have hmem : (p :: ps).get ⟨(rand_draw rng).1 % (ps.length + 1),
        Nat.mod_lt _ (Nat.succ_pos _)⟩ ∈ p :: ps := List.get_mem _ _ _
    exact hmem

lemma get_next_question_inv (rng : RngState) (tier : Int)
    (asked : Finset (Int × Nat)) (all_qs : Int → List Question)
    (d : Int) (i : Nat) (q : Question) (rng2 : RngState)
    (h : get_next_question rng tier asked all_qs = ((d, some i, some q), rng2)) :
    d = tier ∧ (i, q) ∈ pick_question tier asked all_qs := by
  unfold get_next_question at h
  cases hav : pick_question tier asked all_qs with
  | nil =>
    rw [hav] at h
    simp [random_choice, Prod.mk.injEq] at h
  | cons p ps =>
    rw [hav] at h
    simp only [random_choice, Prod.mk.injEq] at h
    obtain ⟨⟨hd, hi, hq⟩, -⟩ := h
    injection hi with hi
    injection hq with hq
    refine ⟨hd.symm, ?_⟩
    rw [← hi, ← hq]
    have hmem : (p :: ps).get ⟨(rand_draw rng).1 % (ps.length + 1),
        Nat.mod_lt _ (Nat.succ_pos _)⟩ ∈ p :: ps := List.get_mem _ _ _
    exact hmem

lemma pick_question_not_asked (tier : Int) (asked : Finset (Int × Nat))
    (all_qs : Int → List Question) (i : Nat) (q : Question)
    (h : (i, q) ∈ pick_question tier asked all_qs) : (tier, i) ∉ asked := by
  unfold pick_question at h
  have := (List.mem_filter.1 h).2
  exact of_decide_eq_true this

/-! ### C6: the randomness source of question selection -/

/-- C6 counterexample: `get_next_question(current_diff, asked, all_qs)`
takes no rng or seed parameter; it reads the process-global `random`
generator (modelled here as the ambient `RngState`).  With the pool,
asked set, and tier all fixed, two different ambient generator states
select different questions, so selection is not a deterministic function
of (pool, asked set, tier, seed) supplied through the selection
interface — no seed can be supplied to it at all. -/
theorem selection_depends_on_ambient_rng :
    (get_next_question ⟨[0]⟩ 4 ∅ pool44).1 ≠ (get_next_question ⟨[1]⟩ 4 ∅ pool44).1 := by
  decide

/-- C6 amended: selection is deterministic only given the ambient global
generator state in addition to pool, asked set, and tier — with no
available question it returns the no-question triple and leaves the
generator untouched, and otherwise it returns a member of the available
list chosen by the generator's next draw.  Reproducing a selection
sequence therefore requires reproducing the global generator state, which
the engine's interface does not accept as a parameter. -/
theorem selection_ambient_deterministic (rng : RngState) (tier : Int)
    (asked : Finset (Int × Nat)) (all_qs : Int → List Question) :
    (pick_question tier asked all_qs = [] →
      get_next_question rng tier asked all_qs = ((tier, none, none), rng))
    ∧ (pick_question tier asked all_qs ≠ [] →
      ∃ (i : Nat) (q : Question) (rng2 : RngState),
        get_next_question rng tier asked all_qs = ((tier, some i, some q), rng2)
        ∧ (i, q) ∈ pick_question tier asked all_qs) :=
  get_next_question_cases rng tier asked all_qs

/-- Witness for C6's amended statement at a concrete pool and ambient
state. -/
theorem selection_ambient_deterministic_witness :
    ∃ (i : Nat) (q : Question) (rng2 : RngState),
      get_next_question ⟨[0]⟩ 4 ∅ pool44 = ((4, some i, some q), rng2)
      ∧ (i, q) ∈ pick_question 4 ∅ pool44 :=
  (selection_ambient_deterministic ⟨[0]⟩ 4 ∅ pool44).2 (by decide)

/-! ### C5: out-of-range tiers are not rejected -/

lemma find_next_avail_or_same (tier : Int) (up : Bool)
    (asked : Finset (Int × Nat)) (all_qs : Int → List Question) :
    find_next_difficulty tier up asked all_qs = tier
    ∨ pick_question (find_next_difficulty tier up asked all_qs) asked all_qs ≠ [] := by
  cases up
  case false =>
    rw [find_next_difficulty_down_def]
    split_ifs with hc
    · exact Or.inr ((bang_isEmpty_iff _).1 hc.2.2)
    · cases hf : (intRangeDown (tier - 1 - 1) (tier - 1 - 1).toNat).find?
          (fun d => !(pick_question d asked all_qs).isEmpty) with
      | some r =>
        obtain ⟨-, -, hr3, -⟩ := intRangeDown_find_some _ _ _ _ hf
        exact Or.inr ((bang_isEmpty_iff _).1 hr3)
      | none => exact Or.inl rfl
  case true =>
    rw [find_next_difficulty_up_def]
    split_ifs with hc
    · exact Or.inr ((bang_isEmpty_iff _).1 hc.2.2)
    · cases hf : (intRange (tier + 1 + 1) (8 - (tier + 1)).toNat).find?
          (fun d => !(pick_question d asked all_qs).isEmpty) with
      | some r =>
        obtain ⟨-, -, hr3, -⟩ := intRange_find_some _ _ _ _ hf
        exact Or.inr ((bang_isEmpty_iff _).1 hr3)
      | none => exact Or.inl rfl

/-- C5 counterexample: the claim says a tier outside [1, 8] makes the
Selector and Navigator fail fast.  Neither function contains any
validation or raise path (the only `try/except` in the engine is inside
`assign_difficulty_label`), so their embeddings are total; at tier 0 both
return ordinary values — the Selector the no-question triple and the
Navigator the first available tier upward (tier 4 of `pool44`). -/
theorem out_of_range_tier_no_failure :
    find_next_difficulty 0 true ∅ pool44 = 4
    ∧ (get_next_question ⟨[0]⟩ 0 ∅ pool44).1 = (0, none, none) := by
  decide

/-- C5 amended: a `currentTier` outside [1, 8] is accepted silently: the
Selector returns the no-question triple unchanged (a built pool holds no
questions outside tiers 1-8), and the Navigator returns an ordinary
value — either the input tier unchanged or a tier that currently has
availability. -/
theorem out_of_range_tier_behavior (tier : Int) (up : Bool)
    (asked : Finset (Int × Nat)) (qs : List Question)
    (h : tier < 1 ∨ 8 < tier) :
    (∀ rng : RngState, get_next_question rng tier asked (group_by_difficulty qs) =
      ((tier, none, none), rng))
    ∧ (find_next_difficulty tier up asked (group_by_difficulty qs) = tier
       ∨ pick_question (find_next_difficulty tier up asked (group_by_difficulty qs))
           asked (group_by_difficulty qs) ≠ []) := by
  constructor
  · intro rng
    have hempty : pick_question tier asked (group_by_difficulty qs) = [] := by
      unfold pick_question
      rw [group_by_difficulty_out_of_range qs tier h]
      rfl
    exact (get_next_question_cases rng tier asked _).1 hempty
  · exact find_next_avail_or_same tier up asked _

/-- Witness for C5's amended statement at tier 0. -/
theorem out_of_range_tier_behavior_witness :
    get_next_question ⟨[]⟩ 0 ∅ (group_by_difficulty [qAlpha]) =
      ((0, none, none), ⟨[]⟩) :=
  (out_of_range_tier_behavior 0 true ∅ [qAlpha] (by decide)).1 ⟨[]⟩

/-- Witness for C2 at tier 4 going up over `pool45` (availability at tier
5): the navigator's result is available and minimal among available
higher tiers. -/
theorem find_next_difficulty_correct_witness :
    4 < find_next_difficulty 4 true ∅ pool45
    ∧ find_next_difficulty 4 true ∅ pool45 ≤ 8
    ∧ pick_question (find_next_difficulty 4 true ∅ pool45) ∅ pool45 ≠ []
    ∧ ∀ d : Int, 4 < d → d ≤ 8 → pick_question d ∅ pool45 ≠ [] →
        find_next_difficulty 4 true ∅ pool45 ≤ d :=
  ((find_next_difficulty_correct 4 true ∅ pool45 (by decide) (by decide)).1 rfl).1
    ⟨5, by decide, by decide, by decide⟩

/-! ### C7: exhaustion in the selection phase completes the session -/

/-- C7: whenever the session is in the `Selecting` phase and the selector
has no unasked question at the current tier, the next step moves the
session directly to `Complete`, with no condition on the current score
(in particular a pool exhausted below the mastery threshold still
completes). -/
theorem selecting_exhausted_completes (all_qs : Int → List Question)
    (rng : RngState) (s : QuizState)
    (hph : phase s = QuizPhase.Selecting)
    (hempty : pick_question s.current_difficulty s.asked all_qs = []) :
    phase (select_step rng s all_qs).1 = QuizPhase.Complete := by
  have hsel := (get_next_question_cases rng s.current_difficulty s.asked all_qs).1
    hempty
  unfold select_step
  rw [hsel]
  rfl

/-- Witness for C7: a session over the one-question pool `pool4` that
answered its question wrong sits at score 0 < 70, yet exhaustion moves it
to `Complete`. -/
theorem selecting_exhausted_completes_witness :
    phase (select_step ⟨[]⟩ sExhausted pool4).1 = QuizPhase.Complete
    ∧ compute_mastery_score sExhausted.answers < 70 := by
  constructor
  · exact selecting_exhausted_completes pool4 ⟨[]⟩ sExhausted (by decide) (by decide)
  · norm_num [sExhausted, compute_mastery_score, mastery_bands, band_entry,
      pyRound, max_def, List.filterMap_cons, List.filterMap_nil]

/-! ### C8: the submit transition -/

/-- C8: on submit in the `AwaitingAnswer` phase, the state machine appends
the `(tier, correct, question)` answer record, adds `(tier, index)` to the
asked set, and branches on the recomputed score: at 70 or above the
session goes straight to `Complete` — bypassing the `ShowingFeedback`
phase for that final answer even though the explanation flag was raised —
and below 70 it goes to `ShowingFeedback`. -/
theorem submit_records_and_completes (s : QuizState) (selected : String)
    (q : Question) (i : Nat)
    (hq : s.current_q = some q) (hi : s.current_q_idx = some i)
    (hph : phase s = QuizPhase.AwaitingAnswer) :
    (submit_step s selected).answers =
      s.answers ++ [(s.current_difficulty, answer_correct selected q, q)]
    ∧ (submit_step s selected).asked = insert (s.current_difficulty, i) s.asked
    ∧ (submit_step s selected).show_explanation = true
    ∧ (70 ≤ compute_mastery_score
        (s.answers ++ [(s.current_difficulty, answer_correct selected q, q)]) →
        phase (submit_step s selected) = QuizPhase.Complete)
    ∧ (compute_mastery_score
        (s.answers ++ [(s.current_difficulty, answer_correct selected q, q)]) < 70 →
        phase (submit_step s selected) = QuizPhase.ShowingFeedback) := by
  have hqe : s.quiz_end = false := by
    cases hqe : s.quiz_end
    · rfl
    · unfold phase at hph
      rw [hqe] at hph
      simp at hph
  unfold submit_step
  rw [hq, hi]
  simp only []
  by_cases hsc : 70 ≤ compute_mastery_score
      (s.answers ++ [(s.current_difficulty, answer_correct selected q, q)])
  · rw [if_pos hsc]
    refine ⟨rfl, rfl, rfl, fun _ => rfl, fun hlt => absurd hsc (by omega)⟩
  · rw [if_neg hsc]
    refine ⟨rfl, rfl, rfl, fun hge => absurd hge hsc, fun _ => ?_⟩
    unfold phase
    rw [hqe]
    simp [hq]

/-- Witness for C8 over `sAwaiting7`: the fifth tier-7 answer pushes the
recomputed score to at least 70 whatever its correctness, and the session
phase after submitting is `Complete`, not `ShowingFeedback`. -/
theorem submit_records_and_completes_witness :
    phase (submit_step sAwaiting7 "A. x") = QuizPhase.Complete := by
  have hsc : 70 ≤ compute_mastery_score (sAwaiting7.answers ++
      [(sAwaiting7.current_difficulty, answer_correct "A. x" qHard3, qHard3)]) := by
    cases havc : answer_correct "A. x" qHard3 <;>
      norm_num [sAwaiting7, compute_mastery_score, mastery_bands, band_entry,
        pyRound, max_def, List.filterMap_cons, List.filterMap_nil]
  exact (submit_records_and_completes sAwaiting7 "A. x" qHard3 2
    rfl rfl rfl).2.2.2.1 hsc

/-! ### C9: the asked set -/

lemma select_step_asked (rng : RngState) (s : QuizState)
    (all_qs : Int → List Question) :
    (select_step rng s all_qs).1.asked = s.asked := by
  unfold select_step
  rcases hg : get_next_question rng s.current_difficulty s.asked all_qs with
    ⟨⟨diff, idx, oq⟩, rng2⟩
  cases oq <;> rfl

lemma submit_step_asked (s : QuizState) (selected : String) :
    s.asked ⊆ (submit_step s selected).asked := by
  unfold submit_step
  cases hq : s.current_q with
  | none => exact Finset.Subset.refl _
  | some q =>
    cases hi : s.current_q_idx with
    | none => exact Finset.Subset.refl _
    | some i =>
      simp only []
      split_ifs <;> exact Finset.subset_insert _ _

lemma acknowledge_step_asked (s : QuizState) (all_qs : Int → List Question) :
    (acknowledge_step s all_qs).asked = s.asked := rfl

/-- C9: in every reachable session state, the asked set holds no duplicate
`(tier, index)` pair (it is a finite set, the embedding of the Python
`set`), each transition only grows it, and the selector never returns a
pair already in it. -/
theorem asked_set_invariants (all_qs : Int → List Question) (s s2 : QuizState)
    (hreach : Reachable all_qs s) (hstep : Step all_qs s s2)
    (rng : RngState) (d : Int) (i : Nat) (q : Question) (rng2 : RngState) :
    s.asked.val.Nodup
    ∧ s.asked ⊆ s2.asked
    ∧ (get_next_question rng s.current_difficulty s.asked all_qs =
        ((d, some i, some q), rng2) → (d, i) ∉ s.asked) := by
  refine ⟨s.asked.nodup, ?_, fun hget => ?_⟩
  · cases hstep with
    | select rng2 s hph => rw [select_step_asked]
    | submit selected s hph => exact submit_step_asked s selected
    | ack s hph => rw [acknowledge_step_asked]
  · obtain ⟨hd, hmem⟩ := get_next_question_inv rng s.current_difficulty s.asked
      all_qs d i q rng2 hget
    subst hd
    exact pick_question_not_asked _ _ _ _ _ hmem

/-- Witness for C9: from the initial state over `pool44`, one selection
step preserves the (empty, duplicate-free) asked set, and the selector's
chosen pair is not in it. -/
theorem asked_set_invariants_witness :
    initQuizState.asked.val.Nodup
    ∧ initQuizState.asked ⊆ (select_step ⟨[0]⟩ initQuizState pool44).1.asked
    ∧ (get_next_question ⟨[0]⟩ initQuizState.current_difficulty
        initQuizState.asked pool44 = ((4, some 0, some qAlpha), ⟨[]⟩) →
        ((4 : Int), (0 : Nat)) ∉ initQuizState.asked) :=
  asked_set_invariants pool44 initQuizState _ Relation.ReflTransGen.refl
    (Step.select ⟨[0]⟩ initQuizState rfl) ⟨[0]⟩ 4 0 qAlpha ⟨[]⟩
